import Mathlib

/-!
Shallow embedding of the Video-Caption-Editor caption timeline model.

Strings are modelled as `List Char`; JavaScript numbers as `Option ℚ`
(`none` is the NaN sentinel — every comparison with NaN is false, which the
`jsLt`/`jsLe`/`jsGt`/`jsGe` helpers encode).  The definitions mirror, in
order: `src/utils/timeUtils.js` (`formatTime`, `parseTime`,
`validateTimestamp`), the caption-store operations of `src/app/page.js`
(`addCaption`, `updateCaption`, `deleteCaption`, `importCaptions`) and
`getCurrentCaption` of `src/components/VideoPlayer.js`.
-/

namespace VCE

/-- JavaScript number restricted to the values this program produces:
`none` models NaN, `some q` a (rational-valued) number. -/
abbrev JSNum := Option ℚ

/-- JS `a < b`: false when either side is NaN. -/
def jsLt (a b : JSNum) : Bool :=
  match a, b with
  | some x, some y => decide (x < y)
  | _, _ => false

/-- JS `a <= b`: false when either side is NaN. -/
def jsLe (a b : JSNum) : Bool :=
  match a, b with
  | some x, some y => decide (x ≤ y)
  | _, _ => false

/-- JS `a > b`: false when either side is NaN. -/
def jsGt (a b : JSNum) : Bool :=
  match a, b with
  | some x, some y => decide (y < x)
  | _, _ => false

/-- JS `a >= b`: false when either side is NaN. -/
def jsGe (a b : JSNum) : Bool :=
  match a, b with
  | some x, some y => decide (y ≤ x)
  | _, _ => false

/-- Kernel-evaluable form of rational subtraction (the library operation is
irreducible); `ratSubC_eq` below shows it is exactly `x - y`. -/
def ratSubC (x y : ℚ) : ℚ := Rat.divInt (x.num * y.den - y.num * x.den) (x.den * y.den)

/-- Kernel-evaluable form of rational multiplication; `ratMulC_eq` below
shows it is exactly `x * y`. -/
def ratMulC (x y : ℚ) : ℚ := Rat.divInt (x.num * y.num) (x.den * y.den)

/-- Kernel-evaluable form of rational division; `ratDivC_eq` below shows it
is exactly `x / y`. -/
def ratDivC (x y : ℚ) : ℚ := Rat.divInt (x.num * y.den) (x.den * y.num)

/-- The character for decimal digit `d` (`d.toString()` for `d < 10`). -/
def digitChar (d : Nat) : Char := Char.ofNat (48 + d)

/-- Numeric value of a digit character. -/
def digitVal (c : Char) : Nat := c.toNat - 48

/-- Fuel-indexed decimal rendering of a natural number (structural recursion
so that the kernel can evaluate it); any `fuel > n` computes the digits. -/
def natToCharsFuel : Nat → Nat → List Char
  | 0, _ => []
  | f + 1, n =>
    if n < 10 then [digitChar n]
    else natToCharsFuel f (n / 10) ++ [digitChar (n % 10)]

/-- `n.toString()` for a natural number `n`. -/
def natToChars (n : Nat) : List Char := natToCharsFuel (n + 1) n

/-- JS `String.prototype.padStart(width, c)` with a one-character pad. -/
def jsPadStart (width : Nat) (c : Char) (l : List Char) : List Char :=
  List.replicate (width - l.length) c ++ l

/-- The whitespace characters relevant to `trim` and `parseInt`. -/
def isJsWhitespace (c : Char) : Bool :=
  c = ' ' || c = '\t' || c = '\n' || c = '\r'

/-- JS `String.prototype.trim()`. -/
def jsTrim (l : List Char) : List Char :=
  ((l.dropWhile isJsWhitespace).reverse.dropWhile isJsWhitespace).reverse

/-- JS `String.prototype.split(sep)` with a one-character separator:
never returns an empty list ("".split(sep) is [""]). -/
def jsSplitOn (sep : Char) : List Char → List (List Char)
  | [] => [[]]
  | c :: rest =>
    let r := jsSplitOn sep rest
    if c = sep then [] :: r else (c :: r.headI) :: r.tail

/-- Value of a decimal-digit string, most significant digit first. -/
def digitsToNat (l : List Char) : Nat :=
  l.foldl (fun acc c => 10 * acc + digitVal c) 0

/-- Longest leading run of decimal digits, or failure when there is none. -/
def parseDigits (l : List Char) : Option Nat :=
  let ds := l.takeWhile Char.isDigit
  if ds.isEmpty then none else some (digitsToNat ds)

/-- JS `parseInt(s, 10)`: skip leading whitespace, optional sign, then the
longest digit prefix; NaN (`none`) when no digits follow. -/
def jsParseInt (s : List Char) : Option Int :=
  match s.dropWhile isJsWhitespace with
  | [] => none
  | c :: rest =>
    if c = '-' then (parseDigits rest).map (fun n => -(n : Int))
    else if c = '+' then (parseDigits rest).map (fun n => (n : Int))
    else (parseDigits (c :: rest)).map (fun n => (n : Int))

/-- Truncating integer division result of JS `x / y` as used by `%`. -/
def jsTrunc (q : ℚ) : ℤ := if 0 ≤ q then Rat.floor q else Rat.ceil q

/-- JS `x % y` on numbers (truncated remainder), for a nonzero divisor —
the program only ever applies `%` with the constant divisors 3600 and 60. -/
def jsMod (x y : ℚ) : ℚ := ratSubC x (ratMulC y ((jsTrunc (ratDivC x y) : ℤ) : ℚ))

/-- The string "00:00:00". -/
def zeroTimeChars : List Char := ['0', '0', ':', '0', '0', ':', '0', '0']

/-- `formatTime` of src/utils/timeUtils.js: seconds to "HH:MM:SS", NaN or
negative input formats as "00:00:00", fractional seconds floored. -/
def formatTime (seconds : JSNum) : List Char :=
  match seconds with
  | none => zeroTimeChars
  | some q =>
    if q < 0 then zeroTimeChars
    else
      let hours := (Rat.floor (ratDivC q 3600)).toNat
      let minutes := (Rat.floor (ratDivC (jsMod q 3600) 60)).toNat
      let secs := (Rat.floor (jsMod q 60)).toNat
      jsPadStart 2 '0' (natToChars hours) ++ ':' ::
        (jsPadStart 2 '0' (natToChars minutes) ++ ':' ::
          jsPadStart 2 '0' (natToChars secs))

/-- The body of `parseTime` after the split: the NaN/negative-field guard,
then the dispatch on the number of fields (seconds / MM:SS / HH:MM:SS). -/
def parseTimeParts (parts : List (Option Int)) : JSNum :=
  if parts.any (fun p => p.isNone || decide (p.getD 0 < 0)) then none
  else
    match parts with
    | [some s0] => some ((s0 : ℚ))
    | [some m, some s0] =>
      if s0 ≥ 60 then none else some (((m * 60 + s0 : ℤ) : ℚ))
    | [some h, some m, some s0] =>
      if m ≥ 60 || s0 ≥ 60 then none
      else some (((h * 3600 + m * 60 + s0 : ℤ) : ℚ))
    | _ => none

/-- `parseTime` of src/utils/timeUtils.js.  The argument is `none` for a
non-string (or absent) input; `some chars` for a string.  The result is a
JS number: `none` is the NaN sentinel. -/
def parseTime (timeString : Option (List Char)) : JSNum :=
  match timeString with
  | none => some 0
  | some s =>
    if s.isEmpty then some 0
    else parseTimeParts ((jsSplitOn ':' (jsTrim s)).map jsParseInt)

/-- `validateTimestamp` of src/utils/timeUtils.js: the single gate for
admitting a caption interval. -/
def validateTimestamp (startTime endTime duration : JSNum) : Bool :=
  if startTime.isNone || endTime.isNone || duration.isNone then false
  else if jsLt startTime (some 0) then false
  else if jsLe endTime startTime then false
  else if jsGt startTime duration || jsGt endTime duration then false
  else true

/-- A caption's style object, with the four attributes the program uses;
a field is `none` when the JS object lacks the key. -/
structure Style where
  fontSize : Option (List Char)
  color : Option (List Char)
  fontWeight : Option (List Char)
  position : Option (List Char)
deriving DecidableEq

/-- The empty style object `{}`. -/
def emptyStyle : Style := ⟨none, none, none, none⟩

/-- The default style record of the caption editor form
(src/components/CaptionEditor.js, initial state). -/
def defaultStyle : Style :=
  { fontSize := some "16px".toList
    color := some "#ffffff".toList
    fontWeight := some "normal".toList
    position := some "bottom".toList }

/-- A caption record as held in the store. -/
structure Caption where
  id : List Char
  startTime : JSNum
  endTime : JSNum
  text : List Char
  style : Style
deriving DecidableEq

/-- The draft the editor hands to `addCaption` (times are strings). -/
structure CaptionDraft where
  startTime : Option (List Char)
  endTime : Option (List Char)
  text : List Char
  style : Option Style
deriving DecidableEq

/-- The error a store operation can surface (the invalid-timestamp toast of
`addCaption`). -/
inductive StoreError
  | invalidTimestamp
deriving DecidableEq

/-- The caption built at the top of `addCaption` (src/app/page.js):
`id: Date.now().toString()`, parsed times, `style: captionData.style || {}`.
`now` is the `Date.now()` reading in milliseconds. -/
def newCaption (now : Nat) (captionData : CaptionDraft) : Caption :=
  { id := natToChars now
    startTime := parseTime captionData.startTime
    endTime := parseTime captionData.endTime
    text := captionData.text
    style := captionData.style.getD emptyStyle }

/-- The comparator `(a, b) => a.startTime - b.startTime` as the sort sees
it: a NaN comparator value is treated as zero by `Array.prototype.sort`. -/
def startCmp (a b : Caption) : ℚ :=
  match a.startTime, b.startTime with
  | some x, some y => ratSubC x y
  | _, _ => 0

/-- Stable insertion of `x` into `l` (later elements never pass equal
ones), the extensional behaviour of JS stable `Array.prototype.sort`. -/
def sortInsert (cmp : Caption → Caption → ℚ) (x : Caption) : List Caption → List Caption
  | [] => [x]
  | y :: ys => if cmp y x < 0 then y :: sortInsert cmp x ys else x :: y :: ys

/-- Stable sort by a JS comparator (insertion sort, which is extensionally
the unique stable sort for a consistent comparator). -/
def jsSortBy (cmp : Caption → Caption → ℚ) : List Caption → List Caption
  | [] => []
  | x :: xs => sortInsert cmp x (jsSortBy cmp xs)

/-- Result of `addCaption`: the toasted error, the overlap-warning flag and
the resulting caption list. -/
structure AddResult where
  error : Option StoreError
  overlapWarning : Bool
  captions : List Caption
deriving DecidableEq

/-- `addCaption` of src/app/page.js: parse the draft times, validate via
`validateTimestamp` against `duration` (on failure: error toast and no
mutation), warn on overlap, then append and sort by start time. -/
def addCaption (now : Nat) (duration : JSNum) (captionData : CaptionDraft)
    (captions : List Caption) : AddResult :=
  let c := newCaption now captionData
  if !(validateTimestamp c.startTime c.endTime duration) then
    { error := some .invalidTimestamp, overlapWarning := false, captions := captions }
  else
    let hasOverlap := captions.any fun cap =>
      jsLt c.startTime cap.endTime && jsGt c.endTime cap.startTime
    { error := none
      overlapWarning := hasOverlap
      captions := jsSortBy startCmp (captions ++ [c]) }

/-- A partial-field update object: `none` fields are absent from the JS
object literal and therefore left unchanged by the spread merge. -/
structure CaptionUpdates where
  id : Option (List Char)
  startTime : Option JSNum
  endTime : Option JSNum
  text : Option (List Char)
  style : Option Style
deriving DecidableEq

/-- The spread merge `{ ...caption, ...updates }`. -/
def applyUpdates (caption : Caption) (updates : CaptionUpdates) : Caption :=
  { id := updates.id.getD caption.id
    startTime := updates.startTime.getD caption.startTime
    endTime := updates.endTime.getD caption.endTime
    text := updates.text.getD caption.text
    style := updates.style.getD caption.style }

/-- Result of `updateCaption`; `error` records that the code path never
signals an error (it toasts success unconditionally). -/
structure UpdateResult where
  error : Option StoreError
  captions : List Caption
deriving DecidableEq

/-- `updateCaption` of src/app/page.js: map over the list, merging the
updates into the caption whose id matches; no sort, no error. -/
def updateCaption (id : List Char) (updates : CaptionUpdates)
    (captions : List Caption) : UpdateResult :=
  { error := none
    captions := captions.map fun caption =>
      if caption.id = id then applyUpdates caption updates else caption }

/-- `deleteCaption` of src/app/page.js: keep every caption whose id
differs. -/
def deleteCaption (id : List Char) (captions : List Caption) : List Caption :=
  captions.filter fun caption => decide (caption.id ≠ id)

/-- One entry of an import document's `captions` array; `none` fields are
absent keys. -/
structure ImportEntry where
  startTime : Option (List Char)
  endTime : Option (List Char)
  text : List Char
  style : Option Style
deriving DecidableEq

/-- The id string assigned to the `idx`-th imported entry at clock reading
`now`. -/
def importedId (now idx : Nat) : List Char :=
  "imported-".toList ++ natToChars now ++ '-' :: natToChars idx

/-- The caption built from one import entry. -/
def importEntry (now idx : Nat) (cap : ImportEntry) : Caption :=
  { id := importedId now idx
    startTime := parseTime cap.startTime
    endTime := parseTime cap.endTime
    text := cap.text
    style := cap.style.getD emptyStyle }

/-- `data.captions.map((cap, index) => ...)` starting at index `i`. -/
def importFrom (now : Nat) : Nat → List ImportEntry → List Caption
  | _, [] => []
  | i, e :: es => importEntry now i e :: importFrom now (i + 1) es

/-- `importCaptions` of src/app/page.js restricted to a document whose
`captions` field is a sequence: the store is replaced by the mapped
entries (no sorting, no validation). -/
def importCaptions (now : Nat) (entries : List ImportEntry) : List Caption :=
  importFrom now 0 entries

/-- `getCurrentCaption` of src/components/VideoPlayer.js: first caption in
store order whose interval contains the current time, endpoints inclusive. -/
def getCurrentCaption (currentTime : JSNum) (captions : List Caption) : Option Caption :=
  captions.find? fun caption =>
    jsGe currentTime caption.startTime && jsLe currentTime caption.endTime

/-- The ascending-`startTime` order the spec calls the canonical storage
order. -/
abbrev SortedByStart (l : List Caption) : Prop :=
  l.Pairwise fun a b => jsLe a.startTime b.startTime = true

/-- One store mutation, tagged with the `Date.now()` reading it observes. -/
inductive StoreOp
  | add (now : Nat) (draft : CaptionDraft)
  | importAll (now : Nat) (entries : List ImportEntry)
  | remove (id : List Char)

/-- Apply one operation to the store, as the page component does. -/
def applyOp (duration : JSNum) (captions : List Caption) : StoreOp → List Caption
  | .add now draft => (addCaption now duration draft captions).captions
  | .importAll now entries => importCaptions now entries
  | .remove id => deleteCaption id captions

/-- Run a sequence of operations from the empty store. -/
def runOps (duration : JSNum) (ops : List StoreOp) : List Caption :=
  ops.foldl (applyOp duration) []

/-- The `Date.now()` reading of an `add` operation. -/
def addNow : StoreOp → Option Nat
  | .add now _ => some now
  | _ => none

/-! ### The kernel-evaluable rational helpers agree with the library ops -/

theorem ratFloor_eq (q : ℚ) : Rat.floor q = ⌊q⌋ :=
  (Rat.floor_def' q).trans Rat.floor_def.symm

theorem ratSubC_eq (x y : ℚ) : ratSubC x y = x - y := by
  have hx : ((x.den : ℚ)) ≠ 0 := Nat.cast_ne_zero.mpr x.den_nz
  have hy : ((y.den : ℚ)) ≠ 0 := Nat.cast_ne_zero.mpr y.den_nz
  rw [ratSubC, Rat.divInt_eq_div]
  conv_rhs => rw [← Rat.num_div_den x, ← Rat.num_div_den y]
  rw [div_sub_div _ _ hx hy]
  push_cast
  ring_nf

theorem ratMulC_eq (x y : ℚ) : ratMulC x y = x * y := by
  have hx : ((x.den : ℚ)) ≠ 0 := Nat.cast_ne_zero.mpr x.den_nz
  have hy : ((y.den : ℚ)) ≠ 0 := Nat.cast_ne_zero.mpr y.den_nz
  rw [ratMulC, Rat.divInt_eq_div]
  conv_rhs => rw [← Rat.num_div_den x, ← Rat.num_div_den y]
  rw [div_mul_div_comm]
  push_cast
  ring_nf

theorem ratDivC_eq (x y : ℚ) : ratDivC x y = x / y := by
  by_cases hy0 : y = 0
  · subst hy0
    simp [ratDivC, Rat.divInt_eq_div]
  · have hx : ((x.den : ℚ)) ≠ 0 := Nat.cast_ne_zero.mpr x.den_nz
    have hy : ((y.den : ℚ)) ≠ 0 := Nat.cast_ne_zero.mpr y.den_nz
    have hyn : ((y.num : ℚ)) ≠ 0 := by
      exact_mod_cast Int.cast_ne_zero.mpr (Rat.num_ne_zero.mpr hy0)
    rw [ratDivC, Rat.divInt_eq_div]
    conv_rhs => rw [← Rat.num_div_den x, ← Rat.num_div_den y]
    push_cast
    field_simp

/-! ### Decimal digit strings -/

theorem digitVal_digitChar : ∀ d : Nat, d < 10 → digitVal (digitChar d) = d := by decide

theorem digitChar_isDigit : ∀ d : Nat, d < 10 → (digitChar d).isDigit = true := by decide

theorem digitChar_not_ws : ∀ d : Nat, d < 10 → isJsWhitespace (digitChar d) = false := by decide

theorem digitChar_ne_minus : ∀ d : Nat, d < 10 → digitChar d ≠ '-' := by decide

theorem digitChar_ne_plus : ∀ d : Nat, d < 10 → digitChar d ≠ '+' := by decide

theorem digitChar_ne_colon : ∀ d : Nat, d < 10 → digitChar d ≠ ':' := by decide

theorem digitChar_inj (d e : Nat) (hd : d < 10) (he : e < 10)
    (h : digitChar d = digitChar e) : d = e := by
  have hv := digitVal_digitChar d hd
  rw [h, digitVal_digitChar e he] at hv
  omega

/-- Every character produced by `natToCharsFuel` is a digit character. -/
theorem natToCharsFuel_digit :
    ∀ f n : Nat, ∀ c ∈ natToCharsFuel f n, ∃ d, d < 10 ∧ c = digitChar d := by
  intro f
  induction f with
  | zero => intro n c hc; simp [natToCharsFuel] at hc
  | succ f ih =>
    intro n c hc
    by_cases h : n < 10
    · simp [natToCharsFuel, h] at hc
      exact ⟨n, h, hc⟩
    · simp only [natToCharsFuel, h, if_false, List.mem_append, List.mem_singleton] at hc
      rcases hc with hc | hc
      · exact ih _ c hc
      · exact ⟨n % 10, Nat.mod_lt _ (by norm_num), hc⟩

theorem natToCharsFuel_ne_nil :
    ∀ f n : Nat, n < f → natToCharsFuel f n ≠ [] := by
  intro f
  induction f with
  | zero => intro n h; omega
  | succ f ih =>
    intro n _
    by_cases h : n < 10
    · simp [natToCharsFuel, h]
    · simp [natToCharsFuel, h]

theorem digitsToNat_append_digit (l : List Char) (c : Char) :
    digitsToNat (l ++ [c]) = 10 * digitsToNat l + digitVal c := by
  simp [digitsToNat, List.foldl_append]

/-- Rendering then reading a decimal numeral is the identity. -/
theorem digitsToNat_natToCharsFuel :
    ∀ f n : Nat, n < f → digitsToNat (natToCharsFuel f n) = n := by
  intro f
  induction f with
  | zero => intro n h; omega
  | succ f ih =>
    intro n hn
    by_cases h : n < 10
    · simp [natToCharsFuel, h, digitsToNat, digitVal_digitChar n h]
    · have h10 : 10 ≤ n := Nat.le_of_not_lt h
      have hdiv : n / 10 < f := by
        have : n / 10 < n := Nat.div_lt_self (by omega) (by norm_num)
        omega
      simp only [natToCharsFuel, h, if_false]
      rw [digitsToNat_append_digit, ih _ hdiv,
        digitVal_digitChar _ (Nat.mod_lt _ (by norm_num))]
      omega

theorem digitsToNat_natToChars (n : Nat) : digitsToNat (natToChars n) = n :=
  digitsToNat_natToCharsFuel (n + 1) n (Nat.lt_succ_self n)

theorem natToChars_inj {a b : Nat} (h : natToChars a = natToChars b) : a = b := by
  have ha := digitsToNat_natToChars a
  have hb := digitsToNat_natToChars b
  rw [h] at ha
  omega

theorem natToChars_ne_nil (n : Nat) : natToChars n ≠ [] :=
  natToCharsFuel_ne_nil (n + 1) n (Nat.lt_succ_self n)

theorem natToChars_digit (n : Nat) :
    ∀ c ∈ natToChars n, ∃ d, d < 10 ∧ c = digitChar d :=
  natToCharsFuel_digit (n + 1) n

/-- The head of a rendered numeral is a digit character, hence never `'i'`. -/
theorem natToChars_head_digit (n : Nat) :
    ∃ d rest, d < 10 ∧ natToChars n = digitChar d :: rest := by
  rcases hl : natToChars n with _ | ⟨c, rest⟩
  · exact absurd hl (natToChars_ne_nil n)
  · have hc : c ∈ natToChars n := by rw [hl]; exact List.mem_cons_self _ _
    obtain ⟨d, hd, rfl⟩ := natToChars_digit n c hc
    exact ⟨d, rest, hd, rfl⟩

/-! ### Splitting, trimming and parsing character lists -/

/-- A chunk is any list; `SepFree` says it avoids the separator. -/
def SepFree (sep : Char) (l : List Char) : Prop := ∀ c ∈ l, c ≠ sep

theorem jsSplitOn_ne_nil (sep : Char) (l : List Char) : jsSplitOn sep l ≠ [] := by
  cases l with
  | nil => simp [jsSplitOn]
  | cons c rest =>
    by_cases h : c = sep
    · simp [jsSplitOn, h]
    · simp [jsSplitOn, h]

theorem jsSplitOn_sepFree (sep : Char) (l : List Char) (h : SepFree sep l) :
    jsSplitOn sep l = [l] := by
  induction l with
  | nil => rfl
  | cons c rest ih =>
    have hc : c ≠ sep := h c (List.mem_cons_self _ _)
    have hrest : SepFree sep rest := fun x hx => h x (List.mem_cons_of_mem _ hx)
    simp [jsSplitOn, hc, ih hrest]

theorem jsSplitOn_append (sep : Char) (a rest : List Char) (ha : SepFree sep a) :
    jsSplitOn sep (a ++ sep :: rest) = a :: jsSplitOn sep rest := by
  induction a with
  | nil => simp [jsSplitOn]
  | cons c a ih =>
    have hc : c ≠ sep := ha c (List.mem_cons_self _ _)
    have ha' : SepFree sep a := fun x hx => ha x (List.mem_cons_of_mem _ hx)
    simp only [List.cons_append, jsSplitOn, hc, if_false, List.append_eq]
    rw [ih ha']
    rcases hsp : jsSplitOn sep rest with _ | ⟨x, xs⟩
    · exact absurd hsp (jsSplitOn_ne_nil sep rest)
    · simp

theorem dropWhile_eq_self_of_not (p : Char → Bool) (l : List Char)
    (h : ∀ c ∈ l, p c = false) : l.dropWhile p = l := by
  cases l with
  | nil => rfl
  | cons c rest => simp [List.dropWhile_cons, h c (List.mem_cons_self _ _)]

theorem jsTrim_eq_self (l : List Char) (h : ∀ c ∈ l, isJsWhitespace c = false) :
    jsTrim l = l := by
  unfold jsTrim
  rw [dropWhile_eq_self_of_not _ _ h,
    dropWhile_eq_self_of_not _ _ (fun c hc => h c (List.mem_reverse.mp hc)),
    List.reverse_reverse]

theorem takeWhile_eq_self_of_all (p : Char → Bool) (l : List Char)
    (h : ∀ c ∈ l, p c = true) : l.takeWhile p = l := by
  induction l with
  | nil => rfl
  | cons c rest ih =>
    simp [List.takeWhile_cons, h c (List.mem_cons_self _ _),
      ih (fun x hx => h x (List.mem_cons_of_mem _ hx))]

/-- `parseInt` on a pure digit string reads its decimal value. -/
theorem jsParseInt_digits (l : List Char)
    (hne : l ≠ []) (hdig : ∀ c ∈ l, ∃ d, d < 10 ∧ c = digitChar d) :
    jsParseInt l = some (digitsToNat l : Int) := by
  rcases l with _ | ⟨c, rest⟩
  · exact absurd rfl hne
  · obtain ⟨d, hd, rfl⟩ := hdig c (List.mem_cons_self _ _)
    have hws : ∀ x ∈ digitChar d :: rest, isJsWhitespace x = false := by
      intro x hx
      obtain ⟨e, he, rfl⟩ := hdig x hx
      exact digitChar_not_ws e he
    have hdigs : ∀ x ∈ digitChar d :: rest, x.isDigit = true := by
      intro x hx
      obtain ⟨e, he, rfl⟩ := hdig x hx
      exact digitChar_isDigit e he
    unfold jsParseInt
    rw [dropWhile_eq_self_of_not _ _ hws]
    simp only [digitChar_ne_minus d hd, if_false, digitChar_ne_plus d hd]
    rw [parseDigits, takeWhile_eq_self_of_all _ _ hdigs]
    simp

/-- `natToChars` of a two-digit-bounded number, written out. -/
theorem natToChars_le_99 (n : Nat) (h : n ≤ 99) :
    natToChars n = if n < 10 then [digitChar n]
      else [digitChar (n / 10), digitChar (n % 10)] := by
  by_cases h10 : n < 10
  · simp [natToChars, natToCharsFuel, h10]
  · have h1 : 10 ≤ n := Nat.le_of_not_lt h10
    obtain ⟨f, rfl⟩ : ∃ f, n = f + 1 := ⟨n - 1, by omega⟩
    have hdiv : (f + 1) / 10 < 10 := by omega
    simp only [natToChars, natToCharsFuel, h10, if_false, hdiv, if_true]
    rfl

/-- The two-character zero-padded field for `n ≤ 99`, with its digits. -/
theorem jsPadStart_natToChars (n : Nat) (h : n ≤ 99) :
    ∃ a b, a < 10 ∧ b < 10 ∧ 10 * a + b = n ∧
      jsPadStart 2 '0' (natToChars n) = [digitChar a, digitChar b] := by
  by_cases h10 : n < 10
  · refine ⟨0, n, by norm_num, h10, by omega, ?_⟩
    rw [natToChars_le_99 n h]
    simp [h10, jsPadStart, List.replicate]
    rfl
  · refine ⟨n / 10, n % 10, by omega, Nat.mod_lt _ (by norm_num), by omega, ?_⟩
    rw [natToChars_le_99 n h]
    simp [h10, jsPadStart, List.replicate]

/-! ### The HH:MM:SS round trip -/

/-- The canonical zero-padded "HH:MM:SS" string for an hour/minute/second
triple (each field padded to width 2). -/
def hmsChars (h m s : Nat) : List Char :=
  jsPadStart 2 '0' (natToChars h) ++ ':' ::
    (jsPadStart 2 '0' (natToChars m) ++ ':' :: jsPadStart 2 '0' (natToChars s))

theorem digitsToNat_pair (a b : Nat) (ha : a < 10) (hb : b < 10) :
    digitsToNat [digitChar a, digitChar b] = 10 * a + b := by
  simp [digitsToNat, digitVal_digitChar a ha, digitVal_digitChar b hb]

theorem parseTime_some_of_ne_nil (s : List Char) (h : s ≠ []) :
    parseTime (some s) = parseTimeParts ((jsSplitOn ':' (jsTrim s)).map jsParseInt) := by
  cases s with
  | nil => exact absurd rfl h
  | cons c cs => rfl

theorem parseTimeParts_three (h m s : ℤ)
    (hh : 0 ≤ h) (hm0 : 0 ≤ m) (hs0 : 0 ≤ s) (hm : m < 60) (hs : s < 60) :
    parseTimeParts [some h, some m, some s] = some ((h * 3600 + m * 60 + s : ℤ) : ℚ) := by
  have g1 : ¬(h < 0) := by omega
  have g2 : ¬(m < 0) := by omega
  have g3 : ¬(s < 0) := by omega
  have g4 : ¬(m ≥ 60) := by omega
  have g5 : ¬(s ≥ 60) := by omega
  simp [parseTimeParts, g1, g2, g3, g4, g5]

theorem parseTime_hmsChars (h m s : Nat) (hh : h ≤ 99) (hm : m ≤ 59) (hs : s ≤ 59) :
    parseTime (some (hmsChars h m s)) = some ((h * 3600 + m * 60 + s : Nat) : ℚ) := by
  obtain ⟨a1, b1, ha1, hb1, hv1, he1⟩ := jsPadStart_natToChars h hh
  obtain ⟨a2, b2, ha2, hb2, hv2, he2⟩ := jsPadStart_natToChars m (by omega)
  obtain ⟨a3, b3, ha3, hb3, hv3, he3⟩ := jsPadStart_natToChars s (by omega)
  have hlist : hmsChars h m s =
      [digitChar a1, digitChar b1, ':', digitChar a2, digitChar b2, ':',
        digitChar a3, digitChar b3] := by
    rw [hmsChars, he1, he2, he3]
    rfl
  have hdig : ∀ (a b : Nat), a < 10 → b < 10 →
      ∀ c ∈ [digitChar a, digitChar b], ∃ d, d < 10 ∧ c = digitChar d := by
    intro a b ha hb c hc
    simp only [List.mem_cons, List.not_mem_nil, or_false] at hc
    rcases hc with rfl | rfl
    · exact ⟨a, ha, rfl⟩
    · exact ⟨b, hb, rfl⟩
  have hws : ∀ c ∈ hmsChars h m s, isJsWhitespace c = false := by
    rw [hlist]
    intro c hc
    simp only [List.mem_cons, List.not_mem_nil, or_false] at hc
    rcases hc with rfl | rfl | rfl | rfl | rfl | rfl | rfl | rfl
    · exact digitChar_not_ws a1 ha1
    · exact digitChar_not_ws b1 hb1
    · decide
    · exact digitChar_not_ws a2 ha2
    · exact digitChar_not_ws b2 hb2
    · decide
    · exact digitChar_not_ws a3 ha3
    · exact digitChar_not_ws b3 hb3
  have hfree : ∀ (a b : Nat), a < 10 → b < 10 →
      SepFree ':' [digitChar a, digitChar b] := by
    intro a b ha hb c hc
    simp only [List.mem_cons, List.not_mem_nil, or_false] at hc
    rcases hc with rfl | rfl
    · exact digitChar_ne_colon a ha
    · exact digitChar_ne_colon b hb
  have hsplit : jsSplitOn ':' (hmsChars h m s) =
      [[digitChar a1, digitChar b1], [digitChar a2, digitChar b2],
        [digitChar a3, digitChar b3]] := by
    have e : hmsChars h m s =
        [digitChar a1, digitChar b1] ++ ':' ::
          ([digitChar a2, digitChar b2] ++ ':' :: [digitChar a3, digitChar b3]) := by
      rw [hlist]; rfl
    rw [e, jsSplitOn_append _ _ _ (hfree a1 b1 ha1 hb1),
      jsSplitOn_append _ _ _ (hfree a2 b2 ha2 hb2),
      jsSplitOn_sepFree _ _ (hfree a3 b3 ha3 hb3)]
  have hp : ∀ (a b : Nat), a < 10 → b < 10 →
      jsParseInt [digitChar a, digitChar b] = some ((10 * a + b : Nat) : Int) := by
    intro a b ha hb
    rw [jsParseInt_digits _ (by simp) (hdig a b ha hb), digitsToNat_pair a b ha hb]
  rw [parseTime_some_of_ne_nil _ (by rw [hlist]; simp), jsTrim_eq_self _ hws, hsplit]
  simp only [List.map_cons, List.map_nil, hp a1 b1 ha1 hb1, hp a2 b2 ha2 hb2,
    hp a3 b3 ha3 hb3]
  have h3 := parseTimeParts_three ((10 * a1 + b1 : Nat) : Int) ((10 * a2 + b2 : Nat) : Int)
    ((10 * a3 + b3 : Nat) : Int) (by omega) (by omega) (by omega) (by omega) (by omega)
  rw [h3]
  have hv : (10 * a1 + b1) * 3600 + (10 * a2 + b2) * 60 + (10 * a3 + b3)
      = h * 3600 + m * 60 + s := by omega
  exact congrArg some (by exact_mod_cast congrArg (fun n : ℕ => (n : ℚ)) hv)

theorem ratFloor_natCast (n : Nat) : Rat.floor ((n : ℕ) : ℚ) = (n : ℤ) := by
  rw [ratFloor_eq]
  exact_mod_cast Int.floor_natCast n

theorem floorDivC (N k : Nat) :
    Rat.floor (ratDivC ((N : ℕ) : ℚ) ((k : ℕ) : ℚ)) = ((N / k : ℕ) : ℤ) := by
  rw [ratDivC_eq, ratFloor_eq]
  exact Rat.floor_natCast_div_natCast N k

theorem jsMod_natCast (N k : Nat) :
    jsMod ((N : ℕ) : ℚ) ((k : ℕ) : ℚ) = ((N % k : ℕ) : ℚ) := by
  have hq : (0 : ℚ) ≤ ((N : ℕ) : ℚ) / ((k : ℕ) : ℚ) := by positivity
  rw [jsMod, ratSubC_eq, ratMulC_eq, ratDivC_eq, jsTrunc, if_pos hq,
    ratFloor_eq, Rat.floor_natCast_div_natCast, ← Int.natCast_div]
  have hmod : ((k * (N / k) + N % k : ℕ) : ℚ) = ((N : ℕ) : ℚ) := by
    exact_mod_cast congrArg (fun n : ℕ => (n : ℚ)) (Nat.div_add_mod N k)
  rw [Int.cast_natCast]
  push_cast at hmod
  linarith

theorem formatTime_natCast (N : Nat) :
    formatTime (some ((N : ℕ) : ℚ)) =
      jsPadStart 2 '0' (natToChars (N / 3600)) ++ ':' ::
        (jsPadStart 2 '0' (natToChars (N % 3600 / 60)) ++ ':' ::
          jsPadStart 2 '0' (natToChars (N % 60))) := by
  have h0 : ¬(((N : ℕ) : ℚ) < 0) := not_lt.mpr (by positivity)
  have c3600 : (3600 : ℚ) = ((3600 : ℕ) : ℚ) := by norm_num
  have c60 : (60 : ℚ) = ((60 : ℕ) : ℚ) := by norm_num
  simp only [formatTime, h0, if_false, c3600, c60, jsMod_natCast, floorDivC,
    ratFloor_natCast, Int.toNat_natCast]

/-- C6: for every well-formed "HH:MM:SS" timestamp string with each field
zero-padded to width 2 (hours at most 99, minutes and seconds at most 59 —
exactly the strings `hmsChars h m s` ranges over), formatting the parsed
value reproduces the string: `format(parse(s)) = s`. -/
theorem format_parse_roundtrip (h m s : Nat) (hh : h ≤ 99) (hm : m ≤ 59) (hs : s ≤ 59) :
    formatTime (parseTime (some (hmsChars h m s))) = hmsChars h m s := by
  rw [parseTime_hmsChars h m s hh hm hs, formatTime_natCast]
  have e1 : (h * 3600 + m * 60 + s) / 3600 = h := by omega
  have e2 : (h * 3600 + m * 60 + s) % 3600 / 60 = m := by omega
  have e3 : (h * 3600 + m * 60 + s) % 60 = s := by omega
  rw [e1, e2, e3, hmsChars]

/-- Witness for C6 at the concrete string "01:02:03". -/
theorem format_parse_roundtrip_witness :
    hmsChars 1 2 3 = ['0', '1', ':', '0', '2', ':', '0', '3'] ∧
    formatTime (parseTime (some (hmsChars 1 2 3))) = hmsChars 1 2 3 :=
  ⟨by decide, format_parse_roundtrip 1 2 3 (by decide) (by decide) (by decide)⟩

/-! ### The interval gate -/

/-- C7: `validateTimestamp` returns false exactly when an argument is NaN,
the start is negative, the interval is inverted or empty (`end <= start`),
or an endpoint exceeds the duration; it returns true otherwise. -/
theorem validateTimestamp_gate (sv ev dv : ℚ) :
    (validateTimestamp (some sv) (some ev) (some dv) = false ↔
      (sv < 0 ∨ ev ≤ sv ∨ dv < sv ∨ dv < ev)) ∧
    ∀ a b c : JSNum, (a = none ∨ b = none ∨ c = none) →
      validateTimestamp a b c = false := by
  constructor
  · simp only [validateTimestamp, jsLt, jsLe, jsGt, Option.isNone_some,
      Bool.or_self, Bool.false_or, if_false]
    by_cases h1 : sv < 0 <;> by_cases h2 : ev ≤ sv <;>
      by_cases h3 : dv < sv <;> by_cases h4 : dv < ev <;>
      simp [h1, h2, h3, h4]
  · rintro a b c (rfl | rfl | rfl) <;> simp [validateTimestamp]

/-- Witness for C7: the empty interval 5–5 is rejected, and a NaN argument
is rejected. -/
theorem validateTimestamp_gate_witness :
    validateTimestamp (some 5) (some 5) (some 100) = false ∧
    validateTimestamp none (some 1) (some 2) = false :=
  ⟨(validateTimestamp_gate 5 5 100).1.mpr (Or.inr (Or.inl le_rfl)),
    (validateTimestamp_gate 0 0 0).2 none (some 1) (some 2) (Or.inl rfl)⟩

/-! ### Failure characterization of parseTime -/

/-- The flat failure condition on the parsed fields: some field parses to
NaN or to a negative value, the seconds field of the two-field form or the
minutes/seconds fields of the three-field form exceed 59, or the field
count is 0 or greater than 3. -/
abbrev partsFail (parts : List (Option Int)) : Prop :=
  (∃ p ∈ parts, p = none ∨ p.getD 0 < 0) ∨
  (parts.length = 2 ∧ 60 ≤ (parts.getD 1 none).getD 0) ∨
  (parts.length = 3 ∧
    (60 ≤ (parts.getD 1 none).getD 0 ∨ 60 ≤ (parts.getD 2 none).getD 0)) ∨
  parts.length = 0 ∨ 3 < parts.length

theorem parseTimeParts_eq_none_iff (parts : List (Option Int)) :
    parseTimeParts parts = none ↔ partsFail parts := by
  by_cases hg : parts.any (fun p => p.isNone || decide (p.getD 0 < 0)) = true
  · have hfail : partsFail parts := by
      rcases List.any_eq_true.mp hg with ⟨p, hp, hcond⟩
      have hcond' : p.isNone = true ∨ decide (p.getD 0 < 0) = true := by
        simpa using hcond
      rcases hcond' with hn | hneg
      · exact Or.inl ⟨p, hp, Or.inl (Option.isNone_iff_eq_none.mp hn)⟩
      · exact Or.inl ⟨p, hp, Or.inr (of_decide_eq_true hneg)⟩
    simp only [parseTimeParts, hg, if_true, hfail, iff_true]
  · have hok : ∀ p ∈ parts, ∃ v : Int, p = some v ∧ 0 ≤ v := by
      intro p hp
      have hfalse : (p.isNone || decide (p.getD 0 < 0)) = false := by
        by_contra hcon
        refine hg (List.any_eq_true.mpr ⟨p, hp, ?_⟩)
        revert hcon
        cases p.isNone || decide (p.getD 0 < 0) <;> simp
      rcases p with _ | v
      · simp at hfalse
      · refine ⟨v, rfl, ?_⟩
        simp only [Option.isNone_some, Bool.false_or, decide_eq_false_iff_not,
          Option.getD_some] at hfalse
        omega
    have hnone : ¬ ∃ p ∈ parts, p = none ∨ p.getD 0 < 0 := by
      rintro ⟨p, hp, hcase⟩
      obtain ⟨v, rfl, hv⟩ := hok p hp
      rcases hcase with h | h
      · exact Option.some_ne_none v h
      · simp at h; omega
    match parts, hok with
    | [], _ =>
      have : partsFail [] := Or.inr (Or.inr (Or.inr (Or.inl rfl)))
      simp [parseTimeParts, this]
    | [p1], hok =>
      obtain ⟨v1, rfl, hv1⟩ := hok p1 (by simp)
      have hres : parseTimeParts [some v1] = some ((v1 : ℚ)) := by
        simp [parseTimeParts, hg]
      have hnf : ¬ partsFail [some v1] := by
        rintro (h | ⟨h, _⟩ | ⟨h, _⟩ | h | h)
        · exact hnone (by simpa using h)
        all_goals simp at h
      rw [hres]
      exact iff_of_false (by simp) hnf
    | [p1, p2], hok =>
      obtain ⟨v1, rfl, hv1⟩ := hok p1 (by simp)
      obtain ⟨v2, rfl, hv2⟩ := hok p2 (by simp)
      by_cases h60 : (60 : ℤ) ≤ v2
      · have hres : parseTimeParts [some v1, some v2] = none := by
          simp [parseTimeParts, hg, h60]
        have hpf : partsFail [some v1, some v2] :=
          Or.inr (Or.inl ⟨rfl, by simpa using h60⟩)
        simp [hres, hpf]
      · have hres : parseTimeParts [some v1, some v2] = some (((v1 * 60 + v2 : ℤ) : ℚ)) := by
          simp [parseTimeParts, hg, h60]
        have hnf : ¬ partsFail [some v1, some v2] := by
          rintro (h | ⟨_, h⟩ | ⟨h, _⟩ | h | h)
          · exact hnone (by simpa using h)
          · exact h60 (by simpa using h)
          all_goals simp at h
        rw [hres]
        exact iff_of_false (by simp) hnf
    | [p1, p2, p3], hok =>
      obtain ⟨v1, rfl, hv1⟩ := hok p1 (by simp)
      obtain ⟨v2, rfl, hv2⟩ := hok p2 (by simp)
      obtain ⟨v3, rfl, hv3⟩ := hok p3 (by simp)
      by_cases h60 : (60 : ℤ) ≤ v2 ∨ (60 : ℤ) ≤ v3
      · have hb : (v2 ≥ 60 || v3 ≥ 60) = true := by
          rcases h60 with h | h <;> simp [h]
        have hres : parseTimeParts [some v1, some v2, some v3] = none := by
          simp [parseTimeParts, hg, hb]
        have hpf : partsFail [some v1, some v2, some v3] :=
          Or.inr (Or.inr (Or.inl ⟨rfl, by simpa using h60⟩))
        simp [hres, hpf]
      · push_neg at h60
        have hb : (v2 ≥ 60 || v3 ≥ 60) = false := by
          simp only [Bool.or_eq_false_iff, decide_eq_false_iff_not]
          omega
        have hres : parseTimeParts [some v1, some v2, some v3] =
            some (((v1 * 3600 + v2 * 60 + v3 : ℤ) : ℚ)) := by
          simp [parseTimeParts, hg, hb]
        have hnf : ¬ partsFail [some v1, some v2, some v3] := by
          rintro (h | ⟨h, _⟩ | ⟨_, h⟩ | h | h)
          · exact hnone (by simpa using h)
          · simp at h
          · rcases h with h | h <;> (simp at h; omega)
          · simp at h
          · simp at h
        rw [hres]
        exact iff_of_false (by simp) hnf
    | p1 :: p2 :: p3 :: p4 :: rest, _ =>
      have hres : parseTimeParts (p1 :: p2 :: p3 :: p4 :: rest) = none := by
        simp [parseTimeParts, hg]
      have hpf : partsFail (p1 :: p2 :: p3 :: p4 :: rest) :=
        Or.inr (Or.inr (Or.inr (Or.inr (by simp))))
      simp [hres, hpf]

/-- The spec's notion of a numeric field: an optionally signed decimal
integer numeral — nothing but digits after the optional sign. -/
abbrev specNumeral (f : List Char) : Bool :=
  match f with
  | '-' :: ds => !ds.isEmpty && ds.all Char.isDigit
  | ds => !ds.isEmpty && ds.all Char.isDigit

/-- The integer value of a field under the spec's reading. -/
abbrev specNumeralVal (f : List Char) : Int :=
  match f with
  | '-' :: ds => -(digitsToNat ds : Int)
  | ds => (digitsToNat ds : Int)

/-- The claim's failure condition, word for word: some colon-separated
field is non-numeric or negative, minutes or seconds exceed 59 in the two-
or three-field forms, or the field count is 0 or greater than 3. -/
abbrev claimParseFailure (s : List Char) : Prop :=
  (∃ f ∈ jsSplitOn ':' (jsTrim s), specNumeral f = false ∨ specNumeralVal f < 0) ∨
  ((jsSplitOn ':' (jsTrim s)).length = 2 ∧
    60 ≤ specNumeralVal ((jsSplitOn ':' (jsTrim s)).getD 1 [])) ∨
  ((jsSplitOn ':' (jsTrim s)).length = 3 ∧
    (60 ≤ specNumeralVal ((jsSplitOn ':' (jsTrim s)).getD 1 []) ∨
      60 ≤ specNumeralVal ((jsSplitOn ':' (jsTrim s)).getD 2 []))) ∨
  (jsSplitOn ':' (jsTrim s)).length = 0 ∨ 3 < (jsSplitOn ':' (jsTrim s)).length

/-- C2 counterexample: on the input "1a" the claim's condition holds (the
single field "1a" is non-numeric), yet `parseTime` returns 1 — parseInt
reads the leading digit prefix — so the claimed equivalence with the NaN
result is false at this input. -/
theorem parseTime_claim_counterexample :
    claimParseFailure ['1', 'a'] ∧ parseTime (some ['1', 'a']) = some 1 ∧
      ¬ (parseTime (some ['1', 'a']) = none ↔ claimParseFailure ['1', 'a']) := by
  refine ⟨Or.inl ⟨['1', 'a'], by decide, Or.inl (by decide)⟩, by decide, ?_⟩
  intro hiff
  have : parseTime (some ['1', 'a']) = none :=
    hiff.mpr (Or.inl ⟨['1', 'a'], by decide, Or.inl (by decide)⟩)
  simp [show parseTime (some ['1', 'a']) = some 1 from by decide] at this

/-- C2 (amended): empty or non-string input parses to 0, and for nonempty
string input `parseTime` returns the NaN sentinel exactly when some
colon-separated field has no parsable leading integer under `parseInt`
semantics or parses negative, when the seconds field of the two-field form
or the minutes/seconds fields of the three-field form exceed 59, or when
the field count is 0 (unreachable, since splitting never yields zero
fields) or greater than 3. -/
theorem parseTime_failure_characterization (t : Option (List Char)) :
    ((t = none ∨ t = some []) → parseTime t = some 0) ∧
    ∀ s : List Char, t = some s → s ≠ [] →
      (parseTime t = none ↔ partsFail ((jsSplitOn ':' (jsTrim s)).map jsParseInt)) := by
  constructor
  · rintro (rfl | rfl) <;> rfl
  · rintro s rfl hne
    rw [parseTime_some_of_ne_nil s hne]
    exact parseTimeParts_eq_none_iff _

/-- Witness for C2 at "1:99", "" and a non-string input. -/
theorem parseTime_failure_characterization_witness :
    parseTime (some ['1', ':', '9', '9']) = none ∧
    parseTime (some []) = some 0 ∧ parseTime none = some 0 := by
  refine ⟨?_, ?_, ?_⟩
  · exact ((parseTime_failure_characterization (some ['1', ':', '9', '9'])).2
      ['1', ':', '9', '9'] rfl (by decide)).mpr (by decide)
  · exact (parseTime_failure_characterization (some [])).1 (Or.inr rfl)
  · exact (parseTime_failure_characterization none).1 (Or.inl rfl)

/-! ### Lookup by playback time -/

/-- Closed-interval containment of an instant, as the spec describes it
(a NaN-timed caption contains no instant). -/
def ContainsTime (c : Caption) (t : ℚ) : Prop :=
  ∃ a b, c.startTime = some a ∧ c.endTime = some b ∧ a ≤ t ∧ t ≤ b

theorem containsTime_iff_pred (c : Caption) (t : ℚ) :
    (jsGe (some t) c.startTime && jsLe (some t) c.endTime) = true ↔ ContainsTime c t := by
  rcases hs : c.startTime with _ | a <;> rcases he : c.endTime with _ | b <;>
    simp [jsGe, jsLe, ContainsTime, hs, he]

theorem find_eq_some_split {α : Type} (p : α → Bool) :
    ∀ (l : List α) (c : α), l.find? p = some c →
      p c = true ∧ ∃ l1 l2, l = l1 ++ c :: l2 ∧ ∀ x ∈ l1, p x = false := by
  intro l
  induction l with
  | nil => intro c h; simp [List.find?] at h
  | cons a as ih =>
    intro c h
    by_cases hp : p a = true
    · rw [List.find?_cons_of_pos _ hp] at h
      obtain rfl : a = c := Option.some.inj h
      exact ⟨hp, [], as, rfl, by simp⟩
    · have hp' : p a = false := by revert hp; cases p a <;> simp
      rw [List.find?_cons_of_neg _ (by simp [hp'])] at h
      obtain ⟨hc, l1, l2, rfl, hl1⟩ := ih c h
      refine ⟨hc, a :: l1, l2, rfl, ?_⟩
      intro x hx
      rcases List.mem_cons.mp hx with rfl | hx
      · exact hp'
      · exact hl1 x hx

/-- C8: with the store held in ascending start-time order,
`getCurrentCaption` returns none exactly when no caption's closed interval
contains the current time; and a returned caption contains the current time
and is the first caption in that order to do so (everything before it in
the list contains no such instant). -/
theorem getCurrentCaption_first (t : ℚ) (cs : List Caption) (hs : SortedByStart cs) :
    (getCurrentCaption (some t) cs = none ↔ ∀ c ∈ cs, ¬ ContainsTime c t) ∧
    ∀ c, getCurrentCaption (some t) cs = some c →
      ContainsTime c t ∧ c ∈ cs ∧
        ∃ l1 l2, cs = l1 ++ c :: l2 ∧ ∀ x ∈ l1, ¬ ContainsTime x t := by
  constructor
  · rw [getCurrentCaption, List.find?_eq_none]
    constructor
    · intro h c hc hcont
      exact h c hc ((containsTime_iff_pred c t).mpr hcont)
    · intro h c hc hp
      exact h c hc ((containsTime_iff_pred c t).mp hp)
  · intro c hc
    obtain ⟨hp, l1, l2, rfl, hl1⟩ := find_eq_some_split _ cs c hc
    refine ⟨(containsTime_iff_pred c t).mp hp, by simp, l1, l2, rfl, ?_⟩
    intro x hx hcont
    have hfalse := hl1 x hx
    have htrue := (containsTime_iff_pred x t).mpr hcont
    rw [hfalse] at htrue
    exact Bool.false_ne_true htrue

/-- The spec's scenario captions B(1–3) and A(5–8). -/
def capB : Caption :=
  { id := ['b'], startTime := some 1, endTime := some 3, text := ['H', 'i'],
    style := emptyStyle }

def capA : Caption :=
  { id := ['a'], startTime := some 5, endTime := some 8, text := ['H'],
    style := emptyStyle }

/-- Witness for C8: in the sorted store [B(1–3), A(5–8)], the caption found
at time 6 is A, and the theorem yields that A's interval contains 6. -/
theorem getCurrentCaption_first_witness :
    getCurrentCaption (some 6) [capB, capA] = some capA ∧ ContainsTime capA 6 :=
  ⟨by decide,
    ((getCurrentCaption_first 6 [capB, capA] (by decide)).2 capA (by decide)).1⟩

/-! ### Update -/

theorem map_eq_self_of_id {α : Type} (f : α → α) :
    ∀ l : List α, (∀ x ∈ l, f x = x) → l.map f = l := by
  intro l
  induction l with
  | nil => intro _; rfl
  | cons c cs ih =>
    intro h
    rw [List.map_cons, h c (List.mem_cons_self _ _),
      ih (fun x hx => h x (List.mem_cons_of_mem _ hx))]

/-- A sorted two-caption store used by the update counterexamples. -/
def sortedPairStore : List Caption :=
  [{ id := ['a'], startTime := some 0, endTime := some 1, text := ['x'],
      style := emptyStyle },
    { id := ['b'], startTime := some 5, endTime := some 6, text := ['y'],
      style := emptyStyle }]

/-- An update that changes the timing fields. -/
def timingUpdate : CaptionUpdates :=
  { id := none, startTime := some (some 10), endTime := some (some 11),
    text := none, style := none }

/-- C1 counterexample: the store [a(0–1), b(5–6)] is sorted ascending; after
`update("a", {startTime: 10, endTime: 11})` the store is [a(10–11), b(5–6)],
which is not in ascending startTime order — updateCaption never re-sorts. -/
theorem updateCaption_breaks_order_counterexample :
    SortedByStart sortedPairStore ∧
    ¬ SortedByStart (updateCaption ['a'] timingUpdate sortedPairStore).captions := by
  decide

/-- C1 (amended): `updateCaption` merges the provided fields into the
record(s) whose id matches, strictly in place — the length is preserved and
the caption at each position is the original one unless its id matches, in
which case it is the merged record.  No re-sort happens, so ascending
startTime order is not restored after a timing update. -/
theorem updateCaption_in_place (id : List Char) (u : CaptionUpdates)
    (caps : List Caption) :
    (updateCaption id u caps).captions.length = caps.length ∧
    ∀ i : Nat, (updateCaption id u caps).captions[i]? =
      caps[i]?.map fun c => if c.id = id then applyUpdates c u else c := by
  constructor
  · simp [updateCaption]
  · intro i
    simp [updateCaption, List.getElem?_map]

/-- C10: update signals no error, preserves the number of captions, leaves
every caption whose id differs unchanged at its position, and when no
caption carries the id the whole list is unchanged. -/
theorem updateCaption_frame (id : List Char) (u : CaptionUpdates)
    (caps : List Caption) :
    (updateCaption id u caps).error = none ∧
    (updateCaption id u caps).captions.length = caps.length ∧
    (∀ (i : Nat) (c : Caption), caps[i]? = some c → c.id ≠ id →
      (updateCaption id u caps).captions[i]? = some c) ∧
    ((∀ c ∈ caps, c.id ≠ id) → (updateCaption id u caps).captions = caps) := by
  refine ⟨rfl, by simp [updateCaption], ?_, ?_⟩
  · intro i c hc hne
    simp [updateCaption, List.getElem?_map, hc, hne]
  · intro h
    show caps.map _ = caps
    exact map_eq_self_of_id _ caps fun c hc => if_neg (h c hc)

/-- Witness for C10: updating an id absent from the store changes nothing
and reports no error. -/
theorem updateCaption_frame_witness :
    (updateCaption ['z'] timingUpdate sortedPairStore).captions = sortedPairStore ∧
    (updateCaption ['z'] timingUpdate sortedPairStore).error = none :=
  ⟨(updateCaption_frame ['z'] timingUpdate sortedPairStore).2.2.2 (by decide),
    (updateCaption_frame ['z'] timingUpdate sortedPairStore).1⟩

/-! ### Import -/

theorem importFrom_length (now : Nat) :
    ∀ (es : List ImportEntry) (j : Nat), (importFrom now j es).length = es.length := by
  intro es
  induction es with
  | nil => intro j; rfl
  | cons e es ih => intro j; simp [importFrom, ih (j + 1)]

theorem importFrom_getElem? (now : Nat) :
    ∀ (es : List ImportEntry) (j i : Nat),
      (importFrom now j es)[i]? = es[i]?.map fun e => importEntry now (j + i) e := by
  intro es
  induction es with
  | nil => intro j i; simp [importFrom]
  | cons e es ih =>
    intro j i
    cases i with
    | zero => simp [importFrom]
    | succ i =>
      have harith : j + 1 + i = j + (i + 1) := by omega
      simp only [importFrom, List.getElem?_cons_succ, ih (j + 1) i, harith]

/-- An import entry with no style key, used below. -/
def styleLessEntry : ImportEntry :=
  { startTime := none, endTime := none, text := ['h'], style := none }

/-- C3 counterexample: importing an entry with no style field yields a
caption whose style is the empty object {} — not the default style record
(fontSize "16px", color "#ffffff", fontWeight "normal", position "bottom")
the claim promises; the two records differ. -/
theorem importCaptions_style_counterexample :
    ((importCaptions 7 [styleLessEntry]).map fun c => c.style) = [emptyStyle] ∧
    emptyStyle ≠ defaultStyle := by
  decide

/-- C3 (amended): import maps each entry to a caption positionally: entry i
receives the fresh identifier `imported-<now>-<i>` (identifiers are never
taken from the imported document), its times are parsed via `parseTime`,
and an entry missing `style` receives the empty style object {} (the
default style record is applied only later, at render time). -/
theorem importCaptions_entries (now : Nat) (entries : List ImportEntry) :
    (importCaptions now entries).length = entries.length ∧
    ∀ (i : Nat) (e : ImportEntry), entries[i]? = some e →
      (importCaptions now entries)[i]? = some
        { id := importedId now i
          startTime := parseTime e.startTime
          endTime := parseTime e.endTime
          text := e.text
          style := e.style.getD emptyStyle } := by
  constructor
  · exact importFrom_length now entries 0
  · intro i e he
    rw [importCaptions, importFrom_getElem? now entries 0 i, he]
    simp [importEntry, Nat.zero_add]

/-- Witness for C3's amended theorem on a one-entry import document. -/
theorem importCaptions_entries_witness :
    (importCaptions 7 [styleLessEntry])[0]? =
      some { id := importedId 7 0, startTime := parseTime none,
             endTime := parseTime none, text := ['h'], style := emptyStyle } :=
  (importCaptions_entries 7 [styleLessEntry]).2 0 styleLessEntry rfl

/-! ### The stable sort of addCaption -/

theorem sortInsert_perm (cmp : Caption → Caption → ℚ) (x : Caption) :
    ∀ l : List Caption, (sortInsert cmp x l).Perm (x :: l) := by
  intro l
  induction l with
  | nil => exact List.Perm.refl _
  | cons y ys ih =>
    by_cases h : cmp y x < 0
    · simp only [sortInsert, h, if_true]
      exact (ih.cons y).trans (List.Perm.swap x y ys)
    · simp only [sortInsert, h, if_false]
      exact List.Perm.refl _

theorem jsSortBy_perm (cmp : Caption → Caption → ℚ) :
    ∀ l : List Caption, (jsSortBy cmp l).Perm l := by
  intro l
  induction l with
  | nil => exact List.Perm.refl _
  | cons x xs ih =>
    exact (sortInsert_perm cmp x (jsSortBy cmp xs)).trans (ih.cons x)

theorem mem_sortInsert {cmp : Caption → Caption → ℚ} {x z : Caption}
    {l : List Caption} (h : z ∈ sortInsert cmp x l) : z = x ∨ z ∈ l := by
  have := (sortInsert_perm cmp x l).mem_iff.mp h
  simpa using this

theorem mem_jsSortBy {cmp : Caption → Caption → ℚ} {z : Caption}
    {l : List Caption} (h : z ∈ jsSortBy cmp l) : z ∈ l :=
  (jsSortBy_perm cmp l).mem_iff.mp h

theorem jsLe_some_iff (a b : ℚ) : jsLe (some a) (some b) = true ↔ a ≤ b := by
  simp [jsLe]

theorem startCmp_lt_iff {a b : Caption} {av bv : ℚ}
    (ha : a.startTime = some av) (hb : b.startTime = some bv) :
    startCmp a b < 0 ↔ av < bv := by
  simp only [startCmp, ha, hb, ratSubC_eq]
  exact sub_neg

theorem sortInsert_sorted (x : Caption) :
    ∀ l : List Caption, x.startTime.isSome = true →
      (∀ c ∈ l, c.startTime.isSome = true) → SortedByStart l →
      SortedByStart (sortInsert startCmp x l) := by
  intro l
  induction l with
  | nil =>
    intro _ _ _
    simp [sortInsert, SortedByStart]
  | cons y ys ih =>
    intro hx hl hs
    obtain ⟨xv, hxv⟩ := Option.isSome_iff_exists.mp hx
    obtain ⟨yv, hyv⟩ := Option.isSome_iff_exists.mp
      (hl y (List.mem_cons_self _ _))
    have hys : ∀ c ∈ ys, c.startTime.isSome = true :=
      fun c hc => hl c (List.mem_cons_of_mem _ hc)
    obtain ⟨hy, hsys⟩ := List.pairwise_cons.mp hs
    by_cases h : startCmp y x < 0
    · have hyx : yv < xv := (startCmp_lt_iff hyv hxv).mp h
      simp only [sortInsert, h, if_true]
      refine List.pairwise_cons.mpr ⟨?_, ih hx hys hsys⟩
      intro z hz
      rcases mem_sortInsert hz with rfl | hz
      · rw [hyv, hxv, jsLe_some_iff]
        exact le_of_lt hyx
      · exact hy z hz
    · simp only [sortInsert, h, if_false]
      have hxy : xv ≤ yv := by
        by_contra hcon
        exact h ((startCmp_lt_iff hyv hxv).mpr (lt_of_not_le hcon))
      refine List.pairwise_cons.mpr ⟨?_, List.pairwise_cons.mpr ⟨hy, hsys⟩⟩
      intro z hz
      rcases List.mem_cons.mp hz with rfl | hz
      · rw [hxv, hyv, jsLe_some_iff]
        exact hxy
      · obtain ⟨zv, hzv⟩ := Option.isSome_iff_exists.mp (hys z hz)
        have hyz : yv ≤ zv := (jsLe_some_iff yv zv).mp (by
          have := hy z hz
          rwa [hyv, hzv] at this)
        rw [hxv, hzv, jsLe_some_iff]
        exact le_trans hxy hyz

theorem jsSortBy_sorted :
    ∀ l : List Caption, (∀ c ∈ l, c.startTime.isSome = true) →
      SortedByStart (jsSortBy startCmp l) := by
  intro l
  induction l with
  | nil => intro _; simp [jsSortBy, SortedByStart]
  | cons x xs ih =>
    intro hl
    have hxs : ∀ c ∈ xs, c.startTime.isSome = true :=
      fun c hc => hl c (List.mem_cons_of_mem _ hc)
    exact sortInsert_sorted x (jsSortBy startCmp xs)
      (hl x (List.mem_cons_self _ _))
      (fun c hc => hxs c (mem_jsSortBy hc))
      (ih hxs)

theorem sortInsert_split (x : Caption) :
    ∀ l : List Caption, ∃ l1 l2, l = l1 ++ l2 ∧
      sortInsert startCmp x l = l1 ++ x :: l2 ∧ ∀ y ∈ l1, startCmp y x < 0 := by
  intro l
  induction l with
  | nil => exact ⟨[], [], rfl, rfl, by simp⟩
  | cons y ys ih =>
    by_cases h : startCmp y x < 0
    · obtain ⟨l1, l2, he, hi, hall⟩ := ih
      refine ⟨y :: l1, l2, by rw [List.cons_append, ← he], ?_, ?_⟩
      · simp only [sortInsert, h, if_true, hi, List.cons_append]
      · intro z hz
        rcases List.mem_cons.mp hz with rfl | hz
        · exact h
        · exact hall z hz
    · exact ⟨[], y :: ys, rfl, by simp [sortInsert, h], by simp⟩

theorem filter_sortInsert (x : Caption) (l : List Caption) (k : JSNum)
    (hx : x.startTime.isSome = true) (hl : ∀ c ∈ l, c.startTime.isSome = true) :
    (sortInsert startCmp x l).filter (fun c => decide (c.startTime = k)) =
      (x :: l).filter (fun c => decide (c.startTime = k)) := by
  obtain ⟨l1, l2, rfl, hi, hall⟩ := sortInsert_split x l
  rw [hi, List.filter_append, List.filter_cons, List.filter_cons, List.filter_append]
  by_cases hk : x.startTime = k
  · have hl1 : l1.filter (fun c => decide (c.startTime = k)) = [] := by
      rw [List.filter_eq_nil_iff]
      intro y hy
      obtain ⟨xv, hxv⟩ := Option.isSome_iff_exists.mp hx
      obtain ⟨yv, hyv⟩ := Option.isSome_iff_exists.mp
        (hl y (List.mem_append.mpr (Or.inl hy)))
      have hlt : yv < xv := (startCmp_lt_iff hyv hxv).mp (hall y hy)
      simp only [decide_eq_true_eq]
      rw [hyv, ← hk, hxv]
      intro hcon
      rw [Option.some.injEq] at hcon
      exact absurd hcon (ne_of_lt hlt)
    simp [hk, hl1]
  · have : (decide (x.startTime = k)) = false := by simp [hk]
    simp [this]

theorem filter_jsSortBy (k : JSNum) :
    ∀ l : List Caption, (∀ c ∈ l, c.startTime.isSome = true) →
      (jsSortBy startCmp l).filter (fun c => decide (c.startTime = k)) =
        l.filter (fun c => decide (c.startTime = k)) := by
  intro l
  induction l with
  | nil => intro _; rfl
  | cons x xs ih =>
    intro hl
    have hxs : ∀ c ∈ xs, c.startTime.isSome = true :=
      fun c hc => hl c (List.mem_cons_of_mem _ hc)
    have h1 := filter_sortInsert x (jsSortBy startCmp xs) k
      (hl x (List.mem_cons_self _ _))
      (fun c hc => hxs c (mem_jsSortBy hc))
    rw [jsSortBy, h1, List.filter_cons, List.filter_cons, ih hxs]

/-! ### addCaption -/

theorem validateTimestamp_isSome {a b c : JSNum}
    (h : validateTimestamp a b c = true) :
    a.isSome = true ∧ b.isSome = true := by
  by_cases ha : a.isSome = true
  · by_cases hb : b.isSome = true
    · exact ⟨ha, hb⟩
    · exfalso
      have hb' : b.isNone = true := by
        rcases b with _ | v
        · rfl
        · exact absurd rfl hb
      rw [validateTimestamp] at h
      simp [hb'] at h
  · exfalso
    have ha' : a.isNone = true := by
      rcases a with _ | v
      · rfl
      · exact absurd rfl ha
    rw [validateTimestamp] at h
    simp [ha'] at h

theorem addCaption_success (now : Nat) (duration : JSNum)
    (captionData : CaptionDraft) (captions : List Caption)
    (hv : validateTimestamp (parseTime captionData.startTime)
      (parseTime captionData.endTime) duration = true) :
    (addCaption now duration captionData captions).error = none ∧
    (addCaption now duration captionData captions).captions =
      jsSortBy startCmp (captions ++ [newCaption now captionData]) := by
  have hv' : validateTimestamp (newCaption now captionData).startTime
      (newCaption now captionData).endTime duration = true := hv
  unfold addCaption
  simp [hv']

/-- C4: when the parsed interval passes the gate, add appends the new
caption and stably re-sorts: the resulting sequence is in ascending
startTime order, and for every start-time key the captions with that key
appear exactly as they did in `captions ++ [new]` — equal start times keep
their original relative order. -/
theorem addCaption_sorted_stable (now : Nat) (duration : JSNum)
    (captionData : CaptionDraft) (captions : List Caption)
    (hgate : validateTimestamp (parseTime captionData.startTime)
      (parseTime captionData.endTime) duration = true)
    (hall : ∀ c ∈ captions, c.startTime.isSome = true) :
    (addCaption now duration captionData captions).error = none ∧
    SortedByStart (addCaption now duration captionData captions).captions ∧
    ∀ k : JSNum,
      (addCaption now duration captionData captions).captions.filter
          (fun c => decide (c.startTime = k)) =
        (captions ++ [newCaption now captionData]).filter
          (fun c => decide (c.startTime = k)) := by
  obtain ⟨herr, hcaps⟩ := addCaption_success now duration captionData captions hgate
  have hnew : (newCaption now captionData).startTime.isSome = true :=
    (validateTimestamp_isSome hgate).1
  have hall' : ∀ c ∈ captions ++ [newCaption now captionData],
      c.startTime.isSome = true := by
    intro c hc
    rcases List.mem_append.mp hc with hc | hc
    · exact hall c hc
    · rw [List.mem_singleton.mp hc]
      exact hnew
  refine ⟨herr, ?_, ?_⟩
  · rw [hcaps]
    exact jsSortBy_sorted _ hall'
  · intro k
    rw [hcaps]
    exact filter_jsSortBy k _ hall'

/-- A draft with valid times for a 120-second video (the spec's caption A). -/
def draftA : CaptionDraft :=
  { startTime := some ['5'], endTime := some ['8'], text := "Hello".toList,
    style := none }

/-- Witness for C4: adding caption A to the empty store under duration 120
succeeds and leaves the store sorted. -/
theorem addCaption_sorted_stable_witness :
    (addCaption 10 (some 120) draftA []).error = none ∧
    SortedByStart (addCaption 10 (some 120) draftA []).captions :=
  ⟨(addCaption_sorted_stable 10 (some 120) draftA [] (by decide) (by decide)).1,
    (addCaption_sorted_stable 10 (some 120) draftA [] (by decide) (by decide)).2.1⟩

theorem addCaption_rejected_eq (now : Nat) (duration : JSNum)
    (captionData : CaptionDraft) (captions : List Caption)
    (hfail : validateTimestamp (parseTime captionData.startTime)
      (parseTime captionData.endTime) duration = false) :
    (addCaption now duration captionData captions).error =
      some StoreError.invalidTimestamp ∧
    (addCaption now duration captionData captions).captions = captions := by
  have hv' : validateTimestamp (newCaption now captionData).startTime
      (newCaption now captionData).endTime duration = false := hfail
  unfold addCaption
  simp [hv']

/-- C5: when the parsed interval fails the gate, add reports the
invalid-interval error and the store is returned exactly as it was — no
caption added, no existing caption changed. -/
theorem addCaption_rejected (now : Nat) (duration : JSNum)
    (captionData : CaptionDraft) (captions : List Caption)
    (hfail : validateTimestamp (parseTime captionData.startTime)
      (parseTime captionData.endTime) duration = false) :
    (addCaption now duration captionData captions).error =
      some StoreError.invalidTimestamp ∧
    (addCaption now duration captionData captions).captions = captions :=
  addCaption_rejected_eq now duration captionData captions hfail

/-- The spec's rejected draft: 00:02:05–00:02:10 against a 120 s video. -/
def lateDraft : CaptionDraft :=
  { startTime := some "00:02:05".toList, endTime := some "00:02:10".toList,
    text := ['x'], style := none }

/-- Witness for C5: the out-of-duration draft is rejected and the store is
unchanged. -/
theorem addCaption_rejected_witness :
    (addCaption 50 (some 120) lateDraft sortedPairStore).captions =
      sortedPairStore ∧
    (addCaption 50 (some 120) lateDraft sortedPairStore).error =
      some StoreError.invalidTimestamp :=
  ⟨(addCaption_rejected 50 (some 120) lateDraft sortedPairStore (by decide)).2,
    (addCaption_rejected 50 (some 120) lateDraft sortedPairStore (by decide)).1⟩

/-! ### Identifier uniqueness -/

theorem digitChar_ne_i : ∀ d : Nat, d < 10 → digitChar d ≠ 'i' := by decide

theorem natToChars_ne_i_cons (n : Nat) (rest : List Char) :
    natToChars n ≠ 'i' :: rest := by
  obtain ⟨d, tl, hd, he⟩ := natToChars_head_digit n
  rw [he]
  intro hcon
  exact digitChar_ne_i d hd (List.head_eq_of_cons_eq hcon)

theorem importedId_head (now idx : Nat) :
    ∃ rest, importedId now idx = 'i' :: rest := by
  refine ⟨"mported-".toList ++ natToChars now ++ '-' :: natToChars idx, ?_⟩
  rw [importedId]
  rfl

theorem natToChars_ne_importedId (n now idx : Nat) :
    natToChars n ≠ importedId now idx := by
  obtain ⟨rest, he⟩ := importedId_head now idx
  rw [he]
  exact natToChars_ne_i_cons n rest

theorem importedId_inj_idx {now i j : Nat}
    (h : importedId now i = importedId now j) : i = j := by
  rw [importedId, importedId] at h
  have h1 := List.append_cancel_left h
  exact natToChars_inj (List.tail_eq_of_cons_eq h1)

theorem importFrom_id (now : Nat) :
    ∀ (es : List ImportEntry) (j : Nat) (c : Caption),
      c ∈ importFrom now j es → ∃ i, j ≤ i ∧ c.id = importedId now i := by
  intro es
  induction es with
  | nil => intro j c hc; simp [importFrom] at hc
  | cons e es ih =>
    intro j c hc
    rcases List.mem_cons.mp hc with rfl | hc
    · exact ⟨j, le_rfl, rfl⟩
    · obtain ⟨i, hi, hid⟩ := ih (j + 1) c hc
      exact ⟨i, by omega, hid⟩

theorem importFrom_pairwise (now : Nat) :
    ∀ (es : List ImportEntry) (j : Nat),
      (importFrom now j es).Pairwise (fun a b => a.id ≠ b.id) := by
  intro es
  induction es with
  | nil => intro j; simp [importFrom]
  | cons e es ih =>
    intro j
    rw [importFrom]
    refine List.pairwise_cons.mpr ⟨?_, ih (j + 1)⟩
    intro c hc
    obtain ⟨i, hi, hid⟩ := importFrom_id now es (j + 1) c hc
    show (importEntry now j e).id ≠ c.id
    rw [hid]
    intro hcon
    have := importedId_inj_idx hcon
    omega

/-- Where a caption's identifier can come from, given the multiset `seen`
of clock readings already consumed by `add`: either it is the rendered
clock value of one of them, or it is an import-generated id (which always
starts with 'i'). -/
def IdFromClock (seen : List Nat) (c : Caption) : Prop :=
  (∃ n ∈ seen, c.id = natToChars n) ∨ ∃ rest, c.id = 'i' :: rest

theorem idsymm : Symmetric (fun a b : Caption => a.id ≠ b.id) :=
  fun _ _ h => Ne.symm h

theorem runOps_aux (duration : JSNum) :
    ∀ (ops : List StoreOp) (caps : List Caption) (seen : List Nat),
      (ops.filterMap addNow).Pairwise (fun a b => a ≠ b) →
      (∀ n ∈ ops.filterMap addNow, n ∉ seen) →
      caps.Pairwise (fun a b => a.id ≠ b.id) →
      (∀ c ∈ caps, IdFromClock seen c) →
      (ops.foldl (applyOp duration) caps).Pairwise (fun a b => a.id ≠ b.id) := by
  intro ops
  induction ops with
  | nil =>
    intro caps seen _ _ hp _
    simpa using hp
  | cons op rest ih =>
    intro caps seen hops hseen hp hok
    rw [List.foldl_cons]
    cases op with
    | remove id =>
      have hops' : (rest.filterMap addNow).Pairwise (fun a b => a ≠ b) := by
        simpa [addNow] using hops
      have hseen' : ∀ n ∈ rest.filterMap addNow, n ∉ seen := by
        intro n hn
        exact hseen n (by simpa [addNow] using hn)
      refine ih _ seen hops' hseen' ?_ ?_
      · exact List.Pairwise.sublist (List.filter_sublist _) hp
      · intro c hc
        exact hok c (List.mem_of_mem_filter hc)
    | importAll now es =>
      have hops' : (rest.filterMap addNow).Pairwise (fun a b => a ≠ b) := by
        simpa [addNow] using hops
      have hseen' : ∀ n ∈ rest.filterMap addNow, n ∉ seen := by
        intro n hn
        exact hseen n (by simpa [addNow] using hn)
      refine ih _ seen hops' hseen' ?_ ?_
      · exact importFrom_pairwise now es 0
      · intro c hc
        obtain ⟨i, _, hid⟩ := importFrom_id now es 0 c hc
        obtain ⟨r, hr⟩ := importedId_head now i
        exact Or.inr ⟨r, by rw [hid, hr]⟩
    | add now d =>
      have hfm : (StoreOp.add now d :: rest).filterMap addNow =
          now :: rest.filterMap addNow := by
        simp [addNow, List.filterMap_cons]
      rw [hfm] at hops hseen
      obtain ⟨hnowrest, hops'⟩ := List.pairwise_cons.mp hops
      have hnowseen : now ∉ seen := hseen now (List.mem_cons_self _ _)
      have hseen' : ∀ n ∈ rest.filterMap addNow, n ∉ now :: seen := by
        intro n hn hmem
        rcases List.mem_cons.mp hmem with rfl | hmem
        · exact hnowrest n hn rfl
        · exact hseen n (List.mem_cons_of_mem _ hn) hmem
      have hseen'' : ∀ n ∈ rest.filterMap addNow, n ∉ seen := by
        intro n hn hmem
        exact hseen' n hn (List.mem_cons_of_mem _ hmem)
      by_cases hv : validateTimestamp (parseTime d.startTime)
          (parseTime d.endTime) duration = true
      · have hstep : applyOp duration caps (StoreOp.add now d) =
            jsSortBy startCmp (caps ++ [newCaption now d]) :=
          (addCaption_success now duration d caps hv).2
        rw [hstep]
        have hne : ∀ c ∈ caps, c.id ≠ (newCaption now d).id := by
          intro c hc hcon
          have hid : c.id = natToChars now := hcon
          rcases hok c hc with ⟨n, hn, hcn⟩ | ⟨r, hr⟩
          · rw [hcn] at hid
            exact hnowseen (natToChars_inj hid ▸ hn)
          · rw [hr] at hid
            exact natToChars_ne_i_cons now r hid.symm
        have hpair' : (caps ++ [newCaption now d]).Pairwise
            (fun a b => a.id ≠ b.id) := by
          rw [List.pairwise_append]
          refine ⟨hp, by simp, ?_⟩
          intro a ha b hb
          rw [List.mem_singleton.mp hb]
          exact hne a ha
        have hpairs : (jsSortBy startCmp (caps ++ [newCaption now d])).Pairwise
            (fun a b => a.id ≠ b.id) :=
          (List.Perm.pairwise_iff (fun hab => idsymm hab)
            (jsSortBy_perm startCmp _)).mpr hpair'
        refine ih _ (now :: seen) hops' hseen' hpairs ?_
        intro c hc
        have hc' := mem_jsSortBy hc
        rcases List.mem_append.mp hc' with hc'' | hc''
        · rcases hok c hc'' with ⟨n, hn, hcn⟩ | himp
          · exact Or.inl ⟨n, List.mem_cons_of_mem _ hn, hcn⟩
          · exact Or.inr himp
        · rw [List.mem_singleton.mp hc'']
          exact Or.inl ⟨now, List.mem_cons_self _ _, rfl⟩
      · have hv' : validateTimestamp (parseTime d.startTime)
            (parseTime d.endTime) duration = false := by
          revert hv
          cases validateTimestamp (parseTime d.startTime)
            (parseTime d.endTime) duration <;> simp
        have hstep : applyOp duration caps (StoreOp.add now d) = caps :=
          (addCaption_rejected_eq now duration d caps hv').2
        rw [hstep]
        exact ih _ seen hops' hseen'' hp hok

/-- C9 (amended): identifiers are unique provided creation events observe
distinct clock readings: in any store built from the empty store by
add, import and delete operations whose `add`s carry pairwise distinct
`Date.now()` values, all identifiers are pairwise distinct.  (Two adds
within the same millisecond receive the same identifier — see the
counterexample.) -/
theorem runOps_ids_unique (duration : JSNum) (ops : List StoreOp)
    (h : (ops.filterMap addNow).Pairwise (fun a b => a ≠ b)) :
    (runOps duration ops).Pairwise (fun a b => a.id ≠ b.id) :=
  runOps_aux duration ops [] [] h (by simp) (by simp) (by simp)

/-- A first draft used by the clock counterexample and witness. -/
def draftClockA : CaptionDraft :=
  { startTime := some ['0'], endTime := some ['1'], text := ['A'], style := none }

/-- A second draft used by the clock counterexample and witness. -/
def draftClockB : CaptionDraft :=
  { startTime := some ['5'], endTime := some ['6'], text := ['B'], style := none }

/-- Two adds observing the same clock reading 0. -/
def dupOps : List StoreOp :=
  [StoreOp.add 0 draftClockA, StoreOp.add 0 draftClockB]

/-- C9 counterexample: two adds in the same millisecond (`Date.now()`
returning 0 twice) produce a store of two distinct captions that share the
identifier "0" — identifiers are not unique across the store. -/
theorem duplicate_ids_counterexample :
    ((runOps (some 100) dupOps).map fun c => c.id) = [['0'], ['0']] ∧
    (runOps (some 100) dupOps).length = 2 ∧
    ¬ (runOps (some 100) dupOps).Pairwise (fun a b => a.id ≠ b.id) := by
  decide

/-- Two adds at distinct clock readings. -/
def distinctOps : List StoreOp :=
  [StoreOp.add 1 draftClockA, StoreOp.add 2 draftClockB]

/-- Witness for C9's amended theorem: adds at clock readings 1 and 2 yield
pairwise distinct identifiers. -/
theorem runOps_ids_unique_witness :
    (runOps (some 100) distinctOps).Pairwise (fun a b => a.id ≠ b.id) :=
  runOps_ids_unique (some 100) distinctOps (by decide)

end VCE

